import Mathlib

/-!
Verification of the lexical scanner (`src/scanner.rs`).

The scanner is embedded shallowly: bytes are natural numbers (`32` = space,
`34` = double quote, `92` = backslash, ...), the Rust byte iterator is a
`List Nat` holding the remaining input, and each `scan_*` routine returns the
lexeme kind together with the number of bytes it consumed beyond the leading
byte that drove the dispatch (the Rust code returns the equivalent information
as an end-of-slice pointer).  `next` mirrors `Scanner::next`: it dispatches on
the mode and the leading byte, builds the lexeme slice, and advances the
remaining input.
-/

inductive LexemeKind where
  | Whitespace
  | Tab
  | NewlineLf
  | NewlineCr
  | NewlineCrlf
  | Comment
  | LParen
  | RParen
  | LBracket
  | RBracket
  | LBrace
  | RBrace
  | Identifier
  | IntLit
  | FloatLit
  | CharLit
  | StringLit
  | BoolLit
  | KeywordLit
  | UnterminatedString
  | InvalidNumberSign
  | LString
  | RString
  | StringContent
deriving DecidableEq

inductive ScannerMode where
  | Regular
  | String
deriving DecidableEq

structure Lexeme where
  kind : LexemeKind
  slice : List Nat
deriving DecidableEq

structure Scanner where
  input : List Nat
  mode : ScannerMode
deriving DecidableEq

def is_newline_start (ch : Nat) : Bool :=
  ch == 13 || ch == 10

def is_atmosphere_start (ch : Nat) : Bool :=
  ch == 32 || ch == 9 || ch == 59 || is_newline_start ch

def is_delimiter (ch : Nat) : Bool :=
  ch == 40 || ch == 41 || ch == 91 || ch == 93 || ch == 123 || ch == 125 ||
    ch == 34 || is_atmosphere_start ch

def is_ascii_digit (ch : Nat) : Bool :=
  48 ≤ ch && ch ≤ 57

/-- Length of the longest prefix whose bytes all satisfy `p`; this is the
distance the peeking loops of the Rust scanner advance their iterator. -/
def countWhile (p : Nat → Bool) : List Nat → Nat
  | [] => 0
  | ch :: rest => if p ch then countWhile p rest + 1 else 0

def scan_whitespace (l : List Nat) : LexemeKind × Nat :=
  (LexemeKind.Whitespace, countWhile (fun ch => ch == 32) l)

def scan_tab (l : List Nat) : LexemeKind × Nat :=
  (LexemeKind.Tab, countWhile (fun ch => ch == 9) l)

def scan_cr (l : List Nat) : LexemeKind × Nat :=
  match l with
  | ch :: _ => if ch = 10 then (LexemeKind.NewlineCrlf, 1) else (LexemeKind.NewlineCr, 0)
  | [] => (LexemeKind.NewlineCr, 0)

def scan_comment (l : List Nat) : LexemeKind × Nat :=
  (LexemeKind.Comment, countWhile (fun ch => !is_newline_start ch) l)

def advance_to_delimiter (l : List Nat) : Nat :=
  countWhile (fun ch => !is_delimiter ch) l

def scan_identifier_continue (l : List Nat) : LexemeKind × Nat :=
  (LexemeKind.Identifier, advance_to_delimiter l)

def scan_float : List Nat → LexemeKind × Nat
  | [] => (LexemeKind.FloatLit, 0)
  | ch :: rest =>
    if is_delimiter ch then (LexemeKind.FloatLit, 0)
    else if !is_ascii_digit ch then
      (LexemeKind.Identifier, advance_to_delimiter rest + 1)
    else
      ((scan_float rest).1, (scan_float rest).2 + 1)

def scan_number_continue (l : List Nat) : LexemeKind × Nat :=
  match l.drop (countWhile is_ascii_digit l) with
  | [] => (LexemeKind.IntLit, countWhile is_ascii_digit l)
  | ch :: rest2 =>
    if ch = 46 then
      ((scan_float rest2).1, countWhile is_ascii_digit l + ((scan_float rest2).2 + 1))
    else if !is_delimiter ch then
      (LexemeKind.Identifier, countWhile is_ascii_digit l + (advance_to_delimiter rest2 + 1))
    else (LexemeKind.IntLit, countWhile is_ascii_digit l)

def scan_keyword (l : List Nat) : LexemeKind × Nat :=
  (LexemeKind.KeywordLit, advance_to_delimiter l)

def scan_char (l : List Nat) : LexemeKind × Nat :=
  (LexemeKind.CharLit, advance_to_delimiter l)

/-- The byte count consumed by the content loop of
`Scanner::scan_string_continue`: a backslash always (re)arms the escape flag,
an unescaped quote or any newline byte stops the run, and every other byte
clears the flag and is consumed. -/
def string_content_len : Bool → List Nat → Nat
  | _, [] => 0
  | escaping, ch :: rest =>
    if ch = 92 then string_content_len true rest + 1
    else if ch = 34 ∧ escaping = false then 0
    else if is_newline_start ch then 0
    else string_content_len false rest + 1

/-- `Scanner::scan_string_continue`: dispatch inside a string literal.  The
first component is the scanner mode after the step. -/
def scan_string_continue (ch : Nat) (rest : List Nat) :
    ScannerMode × LexemeKind × Nat :=
  if ch = 34 then (ScannerMode.Regular, LexemeKind.RString, 0)
  else if ch = 13 then (ScannerMode.String, scan_cr rest)
  else if ch = 10 then (ScannerMode.String, LexemeKind.NewlineLf, 0)
  else (ScannerMode.String, LexemeKind.StringContent, string_content_len false rest)

/-- `Scanner::scan_string`, the whole-literal routine.  It is present in the
source but its dispatch arm is commented out, so `next` never calls it. -/
def scan_string_go : Bool → List Nat → LexemeKind × Nat
  | _, [] => (LexemeKind.UnterminatedString, 0)
  | escaping, ch :: rest =>
    if ch = 92 then ((scan_string_go true rest).1, (scan_string_go true rest).2 + 1)
    else if ch = 34 ∧ escaping = false then (LexemeKind.StringLit, 1)
    else ((scan_string_go false rest).1, (scan_string_go false rest).2 + 1)

def scan_string (l : List Nat) : LexemeKind × Nat :=
  scan_string_go false l

def scan_sign (l : List Nat) : LexemeKind × Nat :=
  match l with
  | [] => (LexemeKind.Identifier, 0)
  | ch :: rest =>
    if is_ascii_digit ch then
      ((scan_number_continue rest).1, (scan_number_continue rest).2 + 1)
    else if is_delimiter ch then (LexemeKind.Identifier, 1)
    else (LexemeKind.Identifier, advance_to_delimiter rest + 1)

def scan_number_sign (l : List Nat) : LexemeKind × Nat :=
  match l with
  | [] => (LexemeKind.InvalidNumberSign, 0)
  | ch :: rest =>
    if ch = 116 ∨ ch = 102 then
      match rest with
      | [] => (LexemeKind.BoolLit, 1)
      | ch2 :: rest2 =>
        if !is_delimiter ch2 then
          (LexemeKind.InvalidNumberSign, advance_to_delimiter rest2 + 2)
        else (LexemeKind.BoolLit, 1)
    else if ch = 92 then ((scan_char rest).1, (scan_char rest).2 + 1)
    else if ch = 58 then ((scan_keyword rest).1, (scan_keyword rest).2 + 1)
    else (LexemeKind.InvalidNumberSign, advance_to_delimiter rest + 1)

/-- Regular-mode dispatch of `Scanner::next` on the leading byte.  The first
component is the scanner mode after the step (`String` exactly for the
opening quote, which is `scan_string_start` in the source). -/
def scan_regular (ch : Nat) (rest : List Nat) : ScannerMode × LexemeKind × Nat :=
  if ch = 32 then (ScannerMode.Regular, scan_whitespace rest)
  else if ch = 9 then (ScannerMode.Regular, scan_tab rest)
  else if ch = 13 then (ScannerMode.Regular, scan_cr rest)
  else if ch = 59 then (ScannerMode.Regular, scan_comment rest)
  else if ch = 10 then (ScannerMode.Regular, LexemeKind.NewlineLf, 0)
  else if ch = 40 then (ScannerMode.Regular, LexemeKind.LParen, 0)
  else if ch = 41 then (ScannerMode.Regular, LexemeKind.RParen, 0)
  else if ch = 91 then (ScannerMode.Regular, LexemeKind.LBracket, 0)
  else if ch = 93 then (ScannerMode.Regular, LexemeKind.RBracket, 0)
  else if ch = 123 then (ScannerMode.Regular, LexemeKind.LBrace, 0)
  else if ch = 125 then (ScannerMode.Regular, LexemeKind.RBrace, 0)
  else if ch = 34 then (ScannerMode.String, LexemeKind.LString, 0)
  else if ch = 43 ∨ ch = 45 then (ScannerMode.Regular, scan_sign rest)
  else if ch = 35 then (ScannerMode.Regular, scan_number_sign rest)
  else if is_ascii_digit ch then (ScannerMode.Regular, scan_number_continue rest)
  else (ScannerMode.Regular, scan_identifier_continue rest)

def scan_step (m : ScannerMode) (ch : Nat) (rest : List Nat) :
    ScannerMode × LexemeKind × Nat :=
  match m with
  | ScannerMode.Regular => scan_regular ch rest
  | ScannerMode.String => scan_string_continue ch rest

/-- `Scanner::next`: consume the leading byte, run the selected sub-scan,
emit the lexeme slice and the advanced scanner. -/
def next (s : Scanner) : Option (Lexeme × Scanner) :=
  match s.input with
  | [] => none
  | ch :: rest =>
    some (⟨(scan_step s.mode ch rest).2.1, ch :: rest.take (scan_step s.mode ch rest).2.2⟩,
          ⟨rest.drop (scan_step s.mode ch rest).2.2, (scan_step s.mode ch rest).1⟩)

/-- Iterate `next` with explicit fuel; `scanAll` supplies enough fuel for the
iteration to run to exhaustion, since every step consumes at least one byte. -/
def scanGo : Nat → Scanner → List Lexeme
  | 0, _ => []
  | fuel + 1, s =>
    match next s with
    | none => []
    | some (lx, s2) => lx :: scanGo fuel s2

/-- The full lexeme sequence obtained by running the scanner to exhaustion. -/
def scanAll (s : Scanner) : List Lexeme :=
  scanGo s.input.length s

/-- Concatenation of the text slices of a lexeme sequence. -/
def slices : List Lexeme → List Nat
  | [] => []
  | lx :: rest => lx.slice ++ slices rest

/-- The scanner state left behind after iterating `next` until it returns
`none` (with explicit fuel). -/
def runEnd : Nat → Scanner → Scanner
  | 0, s => s
  | fuel + 1, s =>
    match next s with
    | none => s
    | some (_, s2) => runEnd fuel s2

theorem next_nil_eq (m : ScannerMode) : next ⟨[], m⟩ = none := rfl

theorem next_cons_eq (m : ScannerMode) (ch : Nat) (rest : List Nat) :
    next ⟨ch :: rest, m⟩ =
      some (⟨(scan_step m ch rest).2.1, ch :: rest.take (scan_step m ch rest).2.2⟩,
            ⟨rest.drop (scan_step m ch rest).2.2, (scan_step m ch rest).1⟩) := rfl

theorem input_nil_of_next_none (s : Scanner) (h : next s = none) : s.input = [] := by
  obtain ⟨input, mode⟩ := s
  cases input with
  | nil => rfl
  | cons ch rest => rw [next_cons_eq] at h; cases h

theorem slice_append_of_next (s : Scanner) (lx : Lexeme) (s2 : Scanner)
    (h : next s = some (lx, s2)) : lx.slice ++ s2.input = s.input := by
  obtain ⟨input, mode⟩ := s
  cases input with
  | nil => cases h
  | cons ch rest =>
    rw [next_cons_eq] at h
    injection h with h
    injection h with h1 h2
    subst h1; subst h2
    simp [List.take_append_drop]

theorem slice_length_pos_of_next (s : Scanner) (lx : Lexeme) (s2 : Scanner)
    (h : next s = some (lx, s2)) : 1 ≤ lx.slice.length := by
  obtain ⟨input, mode⟩ := s
  cases input with
  | nil => cases h
  | cons ch rest =>
    rw [next_cons_eq] at h
    injection h with h
    injection h with h1 h2
    subst h1
    simp

theorem next_input_length_lt (s : Scanner) (lx : Lexeme) (s2 : Scanner)
    (h : next s = some (lx, s2)) : s2.input.length < s.input.length := by
  have h1 := slice_append_of_next s lx s2 h
  have h2 := slice_length_pos_of_next s lx s2 h
  have h3 := congrArg List.length h1
  rw [List.length_append] at h3
  omega

theorem scanGo_slices (fuel : Nat) :
    ∀ s : Scanner, s.input.length ≤ fuel → slices (scanGo fuel s) = s.input := by
  induction fuel with
  | zero =>
    intro s h
    have h0 : s.input = [] := List.length_eq_zero.mp (Nat.le_zero.mp h)
    simp [scanGo, slices, h0]
  | succ fuel ih =>
    intro s h
    cases hn : next s with
    | none =>
      have h0 : s.input = [] := input_nil_of_next_none s hn
      simp [scanGo, hn, slices, h0]
    | some p =>
      obtain ⟨lx, s2⟩ := p
      have hlt := next_input_length_lt s lx s2 hn
      have ih2 := ih s2 (by omega)
      simp [scanGo, hn, slices, ih2, slice_append_of_next s lx s2 hn]

theorem scanGo_length_le (fuel : Nat) :
    ∀ s : Scanner, (scanGo fuel s).length ≤ s.input.length := by
  induction fuel with
  | zero => intro s; simp [scanGo]
  | succ fuel ih =>
    intro s
    cases hn : next s with
    | none => simp [scanGo, hn]
    | some p =>
      obtain ⟨lx, s2⟩ := p
      have hlt := next_input_length_lt s lx s2 hn
      have ih2 := ih s2
      simp only [scanGo, hn, List.length_cons]
      omega

theorem next_runEnd_none (fuel : Nat) :
    ∀ s : Scanner, s.input.length ≤ fuel → next (runEnd fuel s) = none := by
  induction fuel with
  | zero =>
    intro s h
    have h0 : s.input = [] := List.length_eq_zero.mp (Nat.le_zero.mp h)
    obtain ⟨input, mode⟩ := s
    cases h0
    simp [runEnd, next_nil_eq]
  | succ fuel ih =>
    intro s h
    cases hn : next s with
    | none => simp [runEnd, hn]
    | some p =>
      obtain ⟨lx, s2⟩ := p
      have hlt := next_input_length_lt s lx s2 hn
      simp only [runEnd, hn]
      exact ih s2 (by omega)

/-- C1: for every input buffer, concatenating the text slices of all lexemes
emitted by running a fresh scanner to exhaustion reproduces the buffer
exactly, with no byte skipped, duplicated, or overlapped. -/
theorem scanner_coverage_partition (buf : List Nat) :
    slices (scanAll ⟨buf, ScannerMode.Regular⟩) = buf :=
  scanGo_slices buf.length ⟨buf, ScannerMode.Regular⟩ (Nat.le_refl _)

/-- C8: every successful `next` emits a slice of at least one byte and shrinks
the remaining input by exactly that slice length, the lexeme sequence of any
finite buffer has at most buffer-length entries, `next` returns `none` on
empty input in every mode, and after running to exhaustion `next` returns
`none`. -/
theorem scanner_progress_termination :
    (∀ (s : Scanner) (lx : Lexeme) (s2 : Scanner), next s = some (lx, s2) →
      1 ≤ lx.slice.length ∧ s2.input.length + lx.slice.length = s.input.length)
    ∧ (∀ s : Scanner, (scanAll s).length ≤ s.input.length)
    ∧ (∀ m : ScannerMode, next ⟨[], m⟩ = none)
    ∧ (∀ s : Scanner, next (runEnd s.input.length s) = none) := by
  refine ⟨fun s lx s2 h => ⟨slice_length_pos_of_next s lx s2 h, ?_⟩,
    fun s => scanGo_length_le s.input.length s,
    fun m => next_nil_eq m,
    fun s => next_runEnd_none s.input.length s (Nat.le_refl _)⟩
  have h1 := slice_append_of_next s lx s2 h
  have h3 := congrArg List.length h1
  rw [List.length_append] at h3
  omega

theorem scanner_progress_termination_witness :
    1 ≤ (Lexeme.mk LexemeKind.Identifier [97]).slice.length ∧
      (Scanner.mk [] ScannerMode.Regular).input.length +
        (Lexeme.mk LexemeKind.Identifier [97]).slice.length =
        (Scanner.mk [97] ScannerMode.Regular).input.length :=
  scanner_progress_termination.1 ⟨[97], ScannerMode.Regular⟩
    ⟨LexemeKind.Identifier, [97]⟩ ⟨[], ScannerMode.Regular⟩ (by decide)

theorem delimiter_not_digit (ch : Nat) (h : is_delimiter ch = true) :
    is_ascii_digit ch = false := by
  simp only [is_delimiter, is_atmosphere_start, is_newline_start, Bool.or_eq_true,
    beq_iff_eq] at h
  simp only [is_ascii_digit, Bool.and_eq_false_iff, decide_eq_false_iff_not]
  omega

/-- C6: the input CR-LF-CR-LF... precisely `"\n\r\r\n"` yields NewlineLf,
NewlineCr, NewlineCrlf and then nothing; in every mode a CR immediately
followed by LF is one two-byte NewlineCrlf lexeme, while a CR followed by a
non-LF byte or by end-of-input is a one-byte NewlineCr lexeme. -/
theorem newline_discrimination :
    scanAll ⟨[10, 13, 13, 10], ScannerMode.Regular⟩ =
      [⟨LexemeKind.NewlineLf, [10]⟩, ⟨LexemeKind.NewlineCr, [13]⟩,
       ⟨LexemeKind.NewlineCrlf, [13, 10]⟩]
    ∧ (∀ (m : ScannerMode) (rest : List Nat),
        next ⟨13 :: 10 :: rest, m⟩ =
          some (⟨LexemeKind.NewlineCrlf, [13, 10]⟩, ⟨rest, m⟩))
    ∧ (∀ (m : ScannerMode) (c : Nat) (rest : List Nat), c ≠ 10 →
        next ⟨13 :: c :: rest, m⟩ =
          some (⟨LexemeKind.NewlineCr, [13]⟩, ⟨c :: rest, m⟩))
    ∧ (∀ m : ScannerMode, next ⟨[13], m⟩ =
        some (⟨LexemeKind.NewlineCr, [13]⟩, ⟨[], m⟩)) := by
  refine ⟨by decide, fun m rest => by cases m <;> rfl, fun m c rest hc => ?_,
    fun m => by cases m <;> rfl⟩
  cases m <;>
    simp [next_cons_eq, scan_step, scan_regular, scan_string_continue, scan_cr, hc]

theorem newline_discrimination_witness :
    next ⟨13 :: 97 :: [], ScannerMode.Regular⟩ =
      some (⟨LexemeKind.NewlineCr, [13]⟩, ⟨97 :: [], ScannerMode.Regular⟩) :=
  newline_discrimination.2.2.1 ScannerMode.Regular 97 [] (by decide)

/-- C7: `#` followed by `:` emits a KeywordLit covering `#:` plus everything
up to the next delimiter; with end-of-input or a delimiter right after `#:`
the lexeme is exactly the two bytes `#:` (zero-length payload). -/
theorem keyword_scan :
    (∀ rest : List Nat,
      next ⟨35 :: 58 :: rest, ScannerMode.Regular⟩ =
        some (⟨LexemeKind.KeywordLit, 35 :: 58 :: rest.take (advance_to_delimiter rest)⟩,
              ⟨rest.drop (advance_to_delimiter rest), ScannerMode.Regular⟩))
    ∧ next ⟨[35, 58], ScannerMode.Regular⟩ =
        some (⟨LexemeKind.KeywordLit, [35, 58]⟩, ⟨[], ScannerMode.Regular⟩)
    ∧ (∀ (d : Nat) (rest : List Nat), is_delimiter d = true →
        next ⟨35 :: 58 :: d :: rest, ScannerMode.Regular⟩ =
          some (⟨LexemeKind.KeywordLit, [35, 58]⟩, ⟨d :: rest, ScannerMode.Regular⟩)) := by
  have hmain : ∀ rest : List Nat,
      next ⟨35 :: 58 :: rest, ScannerMode.Regular⟩ =
        some (⟨LexemeKind.KeywordLit, 35 :: 58 :: rest.take (advance_to_delimiter rest)⟩,
              ⟨rest.drop (advance_to_delimiter rest), ScannerMode.Regular⟩) :=
    fun rest => rfl
  refine ⟨hmain, rfl, fun d rest hd => ?_⟩
  have h0 : advance_to_delimiter (d :: rest) = 0 := by
    simp [advance_to_delimiter, countWhile, hd]
  have h1 := hmain (d :: rest)
  rw [h0] at h1
  simpa using h1

theorem keyword_scan_witness :
    next ⟨35 :: 58 :: 41 :: [], ScannerMode.Regular⟩ =
      some (⟨LexemeKind.KeywordLit, [35, 58]⟩, ⟨41 :: [], ScannerMode.Regular⟩) :=
  keyword_scan.2.2 41 [] (by decide)

/-- C10: `#` followed by a backslash whose next byte is a delimiter or
end-of-input emits a CharLit lexeme of exactly the two bytes `#\` with an
empty character name, and scanning continues at the delimiter. -/
theorem char_empty_name :
    next ⟨[35, 92], ScannerMode.Regular⟩ =
        some (⟨LexemeKind.CharLit, [35, 92]⟩, ⟨[], ScannerMode.Regular⟩)
    ∧ (∀ (d : Nat) (rest : List Nat), is_delimiter d = true →
        next ⟨35 :: 92 :: d :: rest, ScannerMode.Regular⟩ =
          some (⟨LexemeKind.CharLit, [35, 92]⟩, ⟨d :: rest, ScannerMode.Regular⟩))
    ∧ scanAll ⟨[35, 92, 41], ScannerMode.Regular⟩ =
        [⟨LexemeKind.CharLit, [35, 92]⟩, ⟨LexemeKind.RParen, [41]⟩] := by
  have hmain : ∀ rest : List Nat,
      next ⟨35 :: 92 :: rest, ScannerMode.Regular⟩ =
        some (⟨LexemeKind.CharLit, 35 :: 92 :: rest.take (advance_to_delimiter rest)⟩,
              ⟨rest.drop (advance_to_delimiter rest), ScannerMode.Regular⟩) :=
    fun rest => rfl
  refine ⟨rfl, fun d rest hd => ?_, by decide⟩
  have h0 : advance_to_delimiter (d :: rest) = 0 := by
    simp [advance_to_delimiter, countWhile, hd]
  have h1 := hmain (d :: rest)
  rw [h0] at h1
  simpa using h1

theorem char_empty_name_witness :
    next ⟨35 :: 92 :: 41 :: [], ScannerMode.Regular⟩ =
      some (⟨LexemeKind.CharLit, [35, 92]⟩, ⟨41 :: [], ScannerMode.Regular⟩) :=
  char_empty_name.2.1 41 [] (by decide)

/-- C5: the code evaluated at the failing inputs.  `scan_sign` has already
consumed the byte after the sign when it finds it to be a delimiter, so the
emitted Identifier covers the sign AND the delimiter: `"+)"` is one two-byte
Identifier instead of Identifier `"+"` followed by RParen `")"`. -/
theorem sign_delimiter_consumed :
    scanAll ⟨[43, 41], ScannerMode.Regular⟩ = [⟨LexemeKind.Identifier, [43, 41]⟩]
    ∧ scanAll ⟨[45, 32], ScannerMode.Regular⟩ = [⟨LexemeKind.Identifier, [45, 32]⟩]
    ∧ (∀ (d : Nat) (rest : List Nat), is_delimiter d = true →
        next ⟨43 :: d :: rest, ScannerMode.Regular⟩ =
          some (⟨LexemeKind.Identifier, [43, d]⟩, ⟨rest, ScannerMode.Regular⟩)) := by
  refine ⟨by decide, by decide, fun d rest hd => ?_⟩
  have hd2 := delimiter_not_digit d hd
  simp [next_cons_eq, scan_step, scan_regular, scan_sign, hd, hd2]

theorem sign_delimiter_consumed_witness :
    next ⟨43 :: 41 :: [], ScannerMode.Regular⟩ =
      some (⟨LexemeKind.Identifier, [43, 41]⟩, ⟨[], ScannerMode.Regular⟩) :=
  sign_delimiter_consumed.2.2 41 [] (by decide)

theorem scan_cr_kind (l : List Nat) :
    (scan_cr l).1 = LexemeKind.NewlineCrlf ∨ (scan_cr l).1 = LexemeKind.NewlineCr := by
  cases l with
  | nil => exact Or.inr rfl
  | cons c t => by_cases hc : c = 10 <;> simp [scan_cr, hc]

/-- C2 counterexample: in `"\""` the closing quote is preceded by one (an odd
number of) backslash yet the code emits RString and returns to Regular mode,
while in `"a\\\\"` + quote the final quote is preceded by two (an even number
of) backslashes yet the code absorbs it into StringContent and never emits
RString, leaving the scanner in String mode. -/
theorem string_escape_parity_counterexample :
    scanAll ⟨[34, 92, 34], ScannerMode.Regular⟩ =
      [⟨LexemeKind.LString, [34]⟩, ⟨LexemeKind.StringContent, [92]⟩,
       ⟨LexemeKind.RString, [34]⟩]
    ∧ scanAll ⟨[34, 97, 92, 92, 34], ScannerMode.Regular⟩ =
      [⟨LexemeKind.LString, [34]⟩, ⟨LexemeKind.StringContent, [97, 92, 92, 34]⟩] := by
  exact ⟨by decide, by decide⟩

/-- C2 amended: InString is entered (emitting LString) when a quote is scanned
in Regular mode, and is exited (emitting RString) exactly when a String-mode
scan step begins with a quote at the cursor.  A content run stops before a
quote exactly when the escape flag is clear there; the flag is armed by every
backslash consumed in the run regardless of its previous value (so parity of
a backslash run is irrelevant), cleared by any other consumed byte, and it
starts clear at each scan step. -/
theorem string_mode_quote_exit :
    (∀ rest : List Nat, next ⟨34 :: rest, ScannerMode.Regular⟩ =
        some (⟨LexemeKind.LString, [34]⟩, ⟨rest, ScannerMode.String⟩))
    ∧ (∀ rest : List Nat, next ⟨34 :: rest, ScannerMode.String⟩ =
        some (⟨LexemeKind.RString, [34]⟩, ⟨rest, ScannerMode.Regular⟩))
    ∧ (∀ (ch : Nat) (rest : List Nat) (lx : Lexeme) (s2 : Scanner), ch ≠ 34 →
        next ⟨ch :: rest, ScannerMode.String⟩ = some (lx, s2) →
        lx.kind ≠ LexemeKind.RString ∧ s2.mode = ScannerMode.String)
    ∧ (∀ (esc : Bool) (l : List Nat),
        string_content_len esc (92 :: l) = string_content_len true l + 1)
    ∧ (∀ l : List Nat,
        string_content_len true (34 :: l) = string_content_len false l + 1)
    ∧ (∀ l : List Nat, string_content_len false (34 :: l) = 0) := by
  refine ⟨fun rest => rfl, fun rest => rfl, fun ch rest lx s2 hch hn => ?_,
    fun esc l => rfl, fun l => rfl, fun l => rfl⟩
  rw [next_cons_eq] at hn
  injection hn with hn
  injection hn with hn1 hn2
  subst hn1; subst hn2
  simp only [scan_step, scan_string_continue, if_neg hch]
  by_cases h13 : ch = 13
  · simp only [if_pos h13]
    rcases scan_cr_kind rest with h | h <;> simp [h]
  · by_cases h10 : ch = 10 <;> simp [h13, h10]

theorem string_mode_quote_exit_witness :
    (⟨LexemeKind.StringContent, [97]⟩ : Lexeme).kind ≠ LexemeKind.RString ∧
      (⟨[], ScannerMode.String⟩ : Scanner).mode = ScannerMode.String :=
  string_mode_quote_exit.2.2.1 97 [] ⟨LexemeKind.StringContent, [97]⟩
    ⟨[], ScannerMode.String⟩ (by decide) (by decide)

/-- C4: `#` then `t`/`f` is a two-byte BoolLit when followed by end-of-input
or a delimiter; any other follower makes the whole run to the next delimiter
one InvalidNumberSign lexeme, after which scanning continues normally. -/
theorem bool_strictness :
    (∀ t : Nat, t = 116 ∨ t = 102 → next ⟨[35, t], ScannerMode.Regular⟩ =
        some (⟨LexemeKind.BoolLit, [35, t]⟩, ⟨[], ScannerMode.Regular⟩))
    ∧ (∀ (t d : Nat) (rest : List Nat), t = 116 ∨ t = 102 → is_delimiter d = true →
        next ⟨35 :: t :: d :: rest, ScannerMode.Regular⟩ =
          some (⟨LexemeKind.BoolLit, [35, t]⟩, ⟨d :: rest, ScannerMode.Regular⟩))
    ∧ (∀ (t c : Nat) (rest : List Nat), t = 116 ∨ t = 102 → is_delimiter c = false →
        next ⟨35 :: t :: c :: rest, ScannerMode.Regular⟩ =
          some (⟨LexemeKind.InvalidNumberSign,
                  35 :: t :: c :: rest.take (advance_to_delimiter rest)⟩,
                ⟨rest.drop (advance_to_delimiter rest), ScannerMode.Regular⟩))
    ∧ scanAll ⟨[35, 116], ScannerMode.Regular⟩ = [⟨LexemeKind.BoolLit, [35, 116]⟩]
    ∧ scanAll ⟨[35, 116, 114, 117, 101], ScannerMode.Regular⟩ =
        [⟨LexemeKind.InvalidNumberSign, [35, 116, 114, 117, 101]⟩]
    ∧ scanAll ⟨[35, 116, 114, 117, 101, 41], ScannerMode.Regular⟩ =
        [⟨LexemeKind.InvalidNumberSign, [35, 116, 114, 117, 101]⟩,
         ⟨LexemeKind.RParen, [41]⟩] := by
  refine ⟨fun t ht => ?_, fun t d rest ht hd => ?_, fun t c rest ht hc => ?_,
    by decide, by decide, by decide⟩
  · rcases ht with rfl | rfl <;> rfl
  · have key : scan_number_sign (t :: d :: rest) = (LexemeKind.BoolLit, 1) := by
      rcases ht with rfl | rfl <;> simp [scan_number_sign, hd]
    have h1 : scan_step ScannerMode.Regular 35 (t :: d :: rest) =
        (ScannerMode.Regular, scan_number_sign (t :: d :: rest)) := rfl
    rw [next_cons_eq, h1, key]
    rfl
  · have key : scan_number_sign (t :: c :: rest) =
        (LexemeKind.InvalidNumberSign, advance_to_delimiter rest + 2) := by
      rcases ht with rfl | rfl <;> simp [scan_number_sign, hc]
    have h1 : scan_step ScannerMode.Regular 35 (t :: c :: rest) =
        (ScannerMode.Regular, scan_number_sign (t :: c :: rest)) := rfl
    rw [next_cons_eq, h1, key]
    rfl

theorem bool_strictness_witness :
    next ⟨[35, 116], ScannerMode.Regular⟩ =
      some (⟨LexemeKind.BoolLit, [35, 116]⟩, ⟨[], ScannerMode.Regular⟩) :=
  bool_strictness.1 116 (Or.inl rfl)

theorem scan_float_kind (l : List Nat) :
    (scan_float l).1 = LexemeKind.FloatLit ∨ (scan_float l).1 = LexemeKind.Identifier := by
  induction l with
  | nil => exact Or.inl rfl
  | cons ch rest ih =>
    cases h1 : is_delimiter ch
    · cases h2 : is_ascii_digit ch
      · simp [scan_float, h1, h2]
      · simpa [scan_float, h1, h2] using ih
    · simp [scan_float, h1]

theorem scan_number_continue_kind (l : List Nat) :
    (scan_number_continue l).1 = LexemeKind.IntLit ∨
      (scan_number_continue l).1 = LexemeKind.FloatLit ∨
      (scan_number_continue l).1 = LexemeKind.Identifier := by
  cases hd : l.drop (countWhile is_ascii_digit l) with
  | nil => simp [scan_number_continue, hd]
  | cons ch r =>
    by_cases h46 : ch = 46
    · simp only [scan_number_continue, hd, if_pos h46]
      rcases scan_float_kind r with h | h <;> simp [h]
    · cases hdl : is_delimiter ch <;> simp [scan_number_continue, hd, h46, hdl]

theorem scan_sign_kind (l : List Nat) :
    (scan_sign l).1 = LexemeKind.Identifier ∨ (scan_sign l).1 = LexemeKind.IntLit ∨
      (scan_sign l).1 = LexemeKind.FloatLit := by
  cases l with
  | nil => exact Or.inl rfl
  | cons ch rest =>
    cases h1 : is_ascii_digit ch
    · cases h2 : is_delimiter ch <;> simp [scan_sign, h1, h2]
    · simp only [scan_sign, h1, if_pos]
      rcases scan_number_continue_kind rest with h | h | h <;> simp [h]

theorem scan_number_sign_kind (l : List Nat) :
    (scan_number_sign l).1 = LexemeKind.BoolLit ∨
      (scan_number_sign l).1 = LexemeKind.InvalidNumberSign ∨
      (scan_number_sign l).1 = LexemeKind.CharLit ∨
      (scan_number_sign l).1 = LexemeKind.KeywordLit := by
  cases l with
  | nil => simp [scan_number_sign]
  | cons ch rest =>
    by_cases htf : ch = 116 ∨ ch = 102
    · cases rest with
      | nil => simp [scan_number_sign, htf]
      | cons ch2 r2 =>
        cases h2 : is_delimiter ch2 <;> simp [scan_number_sign, htf, h2]
    · by_cases h92 : ch = 92
      · simp [scan_number_sign, htf, h92, scan_char]
      · by_cases h58 : ch = 58 <;> simp [scan_number_sign, htf, h92, h58, scan_keyword]

theorem scan_regular_kind_ok (ch : Nat) (rest : List Nat) :
    (scan_regular ch rest).2.1 ≠ LexemeKind.StringLit ∧
      (scan_regular ch rest).2.1 ≠ LexemeKind.UnterminatedString := by
  by_cases h1 : ch = 32
  · simp [scan_regular, h1, scan_whitespace]
  by_cases h2 : ch = 9
  · simp [scan_regular, h1, h2, scan_tab]
  by_cases h3 : ch = 13
  · rcases scan_cr_kind rest with h | h <;> simp [scan_regular, h1, h2, h3, h]
  by_cases h4 : ch = 59
  · simp [scan_regular, h1, h2, h3, h4, scan_comment]
  by_cases h5 : ch = 10
  · simp [scan_regular, h1, h2, h3, h4, h5]
  by_cases h6 : ch = 40
  · simp [scan_regular, h1, h2, h3, h4, h5, h6]
  by_cases h7 : ch = 41
  · simp [scan_regular, h1, h2, h3, h4, h5, h6, h7]
  by_cases h8 : ch = 91
  · simp [scan_regular, h1, h2, h3, h4, h5, h6, h7, h8]
  by_cases h9 : ch = 93
  · simp [scan_regular, h1, h2, h3, h4, h5, h6, h7, h8, h9]
  by_cases h10 : ch = 123
  · simp [scan_regular, h1, h2, h3, h4, h5, h6, h7, h8, h9, h10]
  by_cases h11 : ch = 125
  · simp [scan_regular, h1, h2, h3, h4, h5, h6, h7, h8, h9, h10, h11]
  by_cases h12 : ch = 34
  · simp [scan_regular, h1, h2, h3, h4, h5, h6, h7, h8, h9, h10, h11, h12]
  by_cases h13 : ch = 43 ∨ ch = 45
  · rcases scan_sign_kind rest with h | h | h <;> simp [scan_regular, h1, h2, h3, h4, h5, h6, h7, h8, h9, h10, h11, h12, h13, h]
  by_cases h14 : ch = 35
  · rcases scan_number_sign_kind rest with h | h | h | h <;> simp [scan_regular, h1, h2, h3, h4, h5, h6, h7, h8, h9, h10, h11, h12, h13, h14, h]
  by_cases h15 : is_ascii_digit ch = true
  · rcases scan_number_continue_kind rest with h | h | h <;>
      simp [scan_regular, h1, h2, h3, h4, h5, h6, h7, h8, h9, h10, h11, h12, h13, h14, h15, h]
  · have h15f : is_ascii_digit ch = false := by simpa using h15
    simp [scan_regular, h1, h2, h3, h4, h5, h6, h7, h8, h9, h10, h11, h12, h13, h14, h15f, scan_identifier_continue]

theorem scan_string_continue_kind_ok (ch : Nat) (rest : List Nat) :
    (scan_string_continue ch rest).2.1 ≠ LexemeKind.StringLit ∧
      (scan_string_continue ch rest).2.1 ≠ LexemeKind.UnterminatedString := by
  by_cases h1 : ch = 34
  · simp [scan_string_continue, h1]
  by_cases h2 : ch = 13
  · rcases scan_cr_kind rest with h | h <;> simp [scan_string_continue, h1, h2, h]
  by_cases h3 : ch = 10
  · simp [scan_string_continue, h1, h2, h3]
  · simp [scan_string_continue, h1, h2, h3]

theorem scan_step_kind_ok (m : ScannerMode) (ch : Nat) (rest : List Nat) :
    (scan_step m ch rest).2.1 ≠ LexemeKind.StringLit ∧
      (scan_step m ch rest).2.1 ≠ LexemeKind.UnterminatedString := by
  cases m with
  | Regular => exact scan_regular_kind_ok ch rest
  | String => exact scan_string_continue_kind_ok ch rest
theorem scanGo_kind_ok (fuel : Nat) :
    ∀ (s : Scanner) (lx : Lexeme), lx ∈ scanGo fuel s →
      lx.kind ≠ LexemeKind.StringLit ∧ lx.kind ≠ LexemeKind.UnterminatedString := by
  induction fuel with
  | zero => intro s lx h; simp [scanGo] at h
  | succ fuel ih =>
    intro s lx h
    cases hn : next s with
    | none => simp [scanGo, hn] at h
    | some p =>
      obtain ⟨lx2, s2⟩ := p
      simp only [scanGo, hn, List.mem_cons] at h
      rcases h with rfl | h
      · obtain ⟨input, mode⟩ := s
        cases input with
        | nil => simp [next_nil_eq] at hn
        | cons ch rest =>
          rw [next_cons_eq] at hn
          injection hn with hn
          injection hn with hn1 hn2
          rw [← hn1]
          exact scan_step_kind_ok mode ch rest
      · exact ih s2 lx h

/-- C9: the scanner never emits a lexeme of kind StringLit or
UnterminatedString (the whole-literal string routine is unreachable from the
dispatch); an input ending inside a string literal just ends with a final
StringContent lexeme at end-of-input, with no closing RString and no
dedicated unterminated marker. -/
theorem no_string_literal_kinds :
    (∀ (s : Scanner) (lx : Lexeme), lx ∈ scanAll s →
      lx.kind ≠ LexemeKind.StringLit ∧ lx.kind ≠ LexemeKind.UnterminatedString)
    ∧ scanAll ⟨[34, 97, 98, 99], ScannerMode.Regular⟩ =
        [⟨LexemeKind.LString, [34]⟩, ⟨LexemeKind.StringContent, [97, 98, 99]⟩] :=
  ⟨fun s lx h => scanGo_kind_ok s.input.length s lx h, by decide⟩

theorem no_string_literal_kinds_witness :
    (⟨LexemeKind.LString, [34]⟩ : Lexeme).kind ≠ LexemeKind.StringLit ∧
      (⟨LexemeKind.LString, [34]⟩ : Lexeme).kind ≠ LexemeKind.UnterminatedString :=
  no_string_literal_kinds.1 ⟨[34], ScannerMode.Regular⟩ ⟨LexemeKind.LString, [34]⟩
    (by decide)

theorem countWhile_append_all (p : Nat → Bool) (ds : List Nat) (b : Nat) (l : List Nat)
    (hds : ∀ x ∈ ds, p x = true) (hb : p b = false) :
    countWhile p (ds ++ b :: l) = ds.length := by
  induction ds with
  | nil => simp [countWhile, hb]
  | cons d ds2 ih =>
    have hd : p d = true := hds d (by simp)
    have ih2 := ih (fun x hx => hds x (by simp [hx]))
    simp [countWhile, hd, ih2]

theorem scan_float_collapse (ds2 : List Nat) (b : Nat) (rest : List Nat)
    (hds2 : ∀ x ∈ ds2, is_ascii_digit x = true)
    (hb : is_ascii_digit b = false) (hbd : is_delimiter b = false) :
    scan_float (ds2 ++ b :: rest) =
      (LexemeKind.Identifier, ds2.length + (advance_to_delimiter rest + 1)) := by
  induction ds2 with
  | nil => simp [scan_float, hb, hbd]
  | cons d ds3 ih =>
    have hd : is_ascii_digit d = true := hds2 d (by simp)
    have hdd : is_delimiter d = false := by
      simp only [is_ascii_digit, Bool.and_eq_true, decide_eq_true_eq] at hd
      simp only [is_delimiter, is_atmosphere_start, is_newline_start, Bool.or_eq_false_iff,
        beq_eq_false_iff_ne, ne_eq]
      omega
    have ih2 := ih (fun x hx => hds2 x (by simp [hx]))
    simp [scan_float, hdd, hd, ih2]
    omega

theorem scan_number_continue_collapse (ds : List Nat) (b : Nat) (rest : List Nat)
    (hds : ∀ x ∈ ds, is_ascii_digit x = true) (hb : is_ascii_digit b = false)
    (hb46 : b ≠ 46) (hbd : is_delimiter b = false) :
    scan_number_continue (ds ++ b :: rest) =
      (LexemeKind.Identifier, ds.length + (advance_to_delimiter rest + 1)) := by
  have hc : countWhile is_ascii_digit (ds ++ b :: rest) = ds.length :=
    countWhile_append_all is_ascii_digit ds b rest hds hb
  have hdrop : (ds ++ b :: rest).drop ds.length = b :: rest := List.drop_left ds (b :: rest)
  simp [scan_number_continue, hc, hdrop, hb46, hbd]

theorem scan_number_continue_float_collapse (ds ds2 : List Nat) (b : Nat) (rest : List Nat)
    (hds : ∀ x ∈ ds, is_ascii_digit x = true)
    (hds2 : ∀ x ∈ ds2, is_ascii_digit x = true)
    (hb : is_ascii_digit b = false) (hbd : is_delimiter b = false) :
    scan_number_continue (ds ++ 46 :: (ds2 ++ b :: rest)) =
      (LexemeKind.Identifier,
        ds.length + ((ds2.length + (advance_to_delimiter rest + 1)) + 1)) := by
  have hc : countWhile is_ascii_digit (ds ++ 46 :: (ds2 ++ b :: rest)) = ds.length :=
    countWhile_append_all is_ascii_digit ds 46 (ds2 ++ b :: rest) hds (by decide)
  have hdrop : (ds ++ 46 :: (ds2 ++ b :: rest)).drop ds.length = 46 :: (ds2 ++ b :: rest) :=
    List.drop_left ds (46 :: (ds2 ++ b :: rest))
  have hf := scan_float_collapse ds2 b rest hds2 hb hbd
  simp [scan_number_continue, hc, hdrop, hf]

theorem scan_regular_digit (ch : Nat) (rest : List Nat) (h : is_ascii_digit ch = true) :
    scan_regular ch rest = (ScannerMode.Regular, scan_number_continue rest) := by
  have h2 : 48 ≤ ch ∧ ch ≤ 57 := by
    simpa [is_ascii_digit, Bool.and_eq_true, decide_eq_true_eq] using h
  unfold scan_regular
  repeat rw [if_neg (by omega)]
  rw [if_pos h]

/-- C3: in Regular mode a digit run followed by a byte that is neither `.`
nor a delimiter collapses to a single Identifier lexeme spanning up to the
next delimiter (so the 6-byte `"123abc"` is one Identifier), and a digit run,
`.`, further digits and then a non-digit non-delimiter byte likewise
collapses to a single Identifier (so `"1.2x"` is one Identifier). -/
theorem numeric_collapse :
    (∀ (d : Nat) (ds : List Nat) (b : Nat) (rest : List Nat),
      is_ascii_digit d = true → (∀ x ∈ ds, is_ascii_digit x = true) →
      is_ascii_digit b = false → b ≠ 46 → is_delimiter b = false →
      next ⟨d :: (ds ++ b :: rest), ScannerMode.Regular⟩ =
        some (⟨LexemeKind.Identifier,
                d :: (ds ++ b :: rest.take (advance_to_delimiter rest))⟩,
              ⟨rest.drop (advance_to_delimiter rest), ScannerMode.Regular⟩))
    ∧ (∀ (d : Nat) (ds ds2 : List Nat) (b : Nat) (rest : List Nat),
      is_ascii_digit d = true → (∀ x ∈ ds, is_ascii_digit x = true) →
      (∀ x ∈ ds2, is_ascii_digit x = true) →
      is_ascii_digit b = false → is_delimiter b = false →
      next ⟨d :: (ds ++ 46 :: (ds2 ++ b :: rest)), ScannerMode.Regular⟩ =
        some (⟨LexemeKind.Identifier,
                d :: (ds ++ 46 :: (ds2 ++ b :: rest.take (advance_to_delimiter rest)))⟩,
              ⟨rest.drop (advance_to_delimiter rest), ScannerMode.Regular⟩))
    ∧ scanAll ⟨[49, 50, 51, 97, 98, 99], ScannerMode.Regular⟩ =
        [⟨LexemeKind.Identifier, [49, 50, 51, 97, 98, 99]⟩]
    ∧ scanAll ⟨[49, 46, 50, 120], ScannerMode.Regular⟩ =
        [⟨LexemeKind.Identifier, [49, 46, 50, 120]⟩] := by
  refine ⟨fun d ds b rest hd hds hb hb46 hbd => ?_,
    fun d ds ds2 b rest hd hds hds2 hb hbd => ?_, by decide, by decide⟩
  · have hstep : scan_step ScannerMode.Regular d (ds ++ b :: rest) =
        (ScannerMode.Regular, LexemeKind.Identifier,
          ds.length + (advance_to_delimiter rest + 1)) := by
      simp [scan_step, scan_regular_digit d _ hd,
        scan_number_continue_collapse ds b rest hds hb hb46 hbd]
    rw [next_cons_eq, hstep]
    simp only [List.take_append, List.drop_append, List.take_succ_cons,
      List.drop_succ_cons]
  · have hstep : scan_step ScannerMode.Regular d (ds ++ 46 :: (ds2 ++ b :: rest)) =
        (ScannerMode.Regular, LexemeKind.Identifier,
          ds.length + ((ds2.length + (advance_to_delimiter rest + 1)) + 1)) := by
      simp [scan_step, scan_regular_digit d _ hd,
        scan_number_continue_float_collapse ds ds2 b rest hds hds2 hb hbd]
    rw [next_cons_eq, hstep]
    simp only [List.take_append, List.drop_append, List.take_succ_cons,
      List.drop_succ_cons]

theorem numeric_collapse_witness :
    next ⟨49 :: ([50, 51] ++ 97 :: [98, 99]), ScannerMode.Regular⟩ =
      some (⟨LexemeKind.Identifier,
              49 :: ([50, 51] ++ 97 :: List.take (advance_to_delimiter [98, 99]) [98, 99])⟩,
            ⟨List.drop (advance_to_delimiter [98, 99]) [98, 99], ScannerMode.Regular⟩) :=
  numeric_collapse.1 49 [50, 51] 97 [98, 99] (by decide) (by decide) (by decide)
    (by decide) (by decide)
